import Mathlib

/-!
# Verification of the stock-ledger core of `Inventory_app.py`

Shallow embedding of the inventory application's data model and the
operations reachable from its four pages (`manage_departments`,
`manage_items`, `view_inventory`, `scan_barcode`), together with proofs
about the stock-update behaviour, duplicate-barcode handling, low-stock
derivation, stock colouring, CSV export round-trip and history
reconciliation.

Timestamps are modelled as `Nat` (the code only ever stores
`datetime.now()` and formats it for display); quantities, thresholds and
history deltas are `Int` (the underlying columns are signed integers and
the scan page accepts negative deltas).
-/

namespace Inventory

/-- `departments` table row: `id` primary key, `name` unique. -/
structure Department where
  id : Nat
  name : String
  deriving Repr, DecidableEq

/-- `items` table row.  `department_id` is a nullable foreign key (SQLAlchemy
nulls it out when the referenced department row is deleted without a cascade
rule, which is the configuration in the source). -/
structure Item where
  id : Nat
  name : String
  barcode : String
  quantity : Int
  low_stock_threshold : Int
  department_id : Option Nat
  last_updated : Nat
  deriving Repr, DecidableEq

/-- `stock_history` table row. -/
structure StockHistory where
  id : Nat
  item_id : Nat
  change : Int
  timestamp : Nat
  note : String
  deriving Repr, DecidableEq

/-- The persistent state: the three tables. -/
structure DB where
  departments : List Department
  items : List Item
  history : List StockHistory
  deriving Repr, DecidableEq

/-- `color_stock(val, threshold)` from the source: red below the threshold,
yellow within 5 above it, green otherwise. -/
def color_stock (val threshold : Int) : String :=
  if val < threshold then
    "background-color: #ffcccc"
  else if val < threshold + 5 then
    "background-color: #fff3cd"
  else
    "background-color: #d4edda"

/-- The low-stock predicate applied row-wise in `view_inventory`
(`df["Quantity"] < df["Low Stock Threshold"]`). -/
def isLowStock (it : Item) : Bool :=
  it.quantity < it.low_stock_threshold

/-- The low-stock alert table of `view_inventory`: the rows of the inventory
whose quantity is below their threshold. -/
def lowStockAlerts (db : DB) : List Item :=
  db.items.filter (fun it => isLowStock it)

/-- Item lookup by barcode, `session.query(Item).filter_by(barcode=...).first()`. -/
def findByBarcode (db : DB) (barcode : String) : Option Item :=
  db.items.find? (fun it => it.barcode = barcode)

/-- The stock-update submit handler of `scan_barcode`: look the item up by
barcode; if found, add the delta to its quantity, stamp `last_updated`,
and append one `StockHistory` row carrying the same delta and note.
No insufficient-stock check appears in the source: the delta is applied
unconditionally. -/
def scanUpdate (db : DB) (barcode : String) (delta : Int) (note : String)
    (now : Nat) : DB :=
  match findByBarcode db barcode with
  | none => db
  | some item =>
    { db with
      items := db.items.map (fun it =>
        if it.id = item.id then
          { it with quantity := it.quantity + delta, last_updated := now }
        else it),
      history := db.history ++
        [{ id := db.history.length, item_id := item.id, change := delta,
           timestamp := now, note := note }] }

/-- Errors surfaced by the item-creation form. -/
inductive CreateErr where
  | validationError
  | duplicateBarcode
  deriving Repr, DecidableEq

/-- The "Add New Item" submit handler of `manage_items`: empty name or
barcode is rejected before any write; a barcode already present makes the
insert raise on the unique constraint, after which `session.rollback()`
restores the previous state; otherwise the new row is committed. -/
def createItem (db : DB) (newId : Nat) (name barcode : String)
    (quantity low_stock : Int) (deptId : Nat) (now : Nat) :
    DB × Option CreateErr :=
  if name = "" ∨ barcode = "" then
    (db, some CreateErr.validationError)
  else if db.items.any (fun it => it.barcode = barcode) then
    (db, some CreateErr.duplicateBarcode)
  else
    ({ db with
        items := db.items ++
          [{ id := newId, name := name, barcode := barcode,
             quantity := quantity, low_stock_threshold := low_stock,
             department_id := some deptId, last_updated := now }] },
     none)

/-- The "Edit Items" Update handler of `manage_items`: overwrite name,
barcode, quantity and threshold of the selected item, stamp `last_updated`,
commit.  No `StockHistory` row is created. -/
def editItem (db : DB) (itemId : Nat) (newName newBarcode : String)
    (newQty newThreshold : Int) (now : Nat) : DB :=
  { db with
    items := db.items.map (fun it =>
      if it.id = itemId then
        { it with
          name := newName, barcode := newBarcode, quantity := newQty,
          low_stock_threshold := newThreshold, last_updated := now }
      else it) }

/-- The Delete handler of `manage_departments`: `session.delete` on the
department row and commit.  The relationship has no delete cascade, so
SQLAlchemy keeps the item rows and nulls their `department_id`. -/
def deleteDepartment (db : DB) (deptId : Nat) : DB :=
  { db with
    departments := db.departments.filter (fun d => d.id ≠ deptId),
    items := db.items.map (fun it =>
      if it.department_id = some deptId then
        { it with department_id := none }
      else it) }

/-- Sum of the committed `change` values for one item. -/
def histSum (db : DB) (itemId : Nat) : Int :=
  ((db.history.filter (fun e => e.item_id = itemId)).map
    (fun e => e.change)).sum

/-- The reconciliation invariant relative to a map `base` assigning each
item id its initial quantity: every item's current quantity is its initial
quantity plus the sum of all its committed history deltas. -/
@[reducible] def reconciled (base : Nat → Int) (db : DB) : Prop :=
  ∀ it ∈ db.items, it.quantity = base it.id + histSum db it.id

/-- A batch of scan-page stock updates, applied in order: each element is
(barcode, delta, note, timestamp). -/
def applySeq (db : DB) : List (String × Int × String × Nat) → DB
  | [] => db
  | (b, d, n, t) :: rest => applySeq (scanUpdate db b d n t) rest

/-! ## CSV encoding and decoding

`view_inventory` builds a DataFrame with columns Department, Item Name,
Barcode, Quantity, Low Stock Threshold, Last Updated and serialises it
with `df.to_csv(index=False)`: a header row, one line per item, fields
separated by commas, minimal quoting (a field is quoted exactly when it
contains a delimiter, a quote or a line break, and embedded quotes are
doubled).  We model the text as `List Char`. -/

/-- The comma delimiter. -/
def commaC : Char := Char.ofNat 44

/-- The double-quote character. -/
def dquoteC : Char := Char.ofNat 34

/-- The line-feed terminator. -/
def nlC : Char := Char.ofNat 10

/-- Carriage return (also triggers quoting). -/
def crC : Char := Char.ofNat 13

/-- The minus sign of a negative integer. -/
def minusC : Char := Char.ofNat 45

/-- QUOTE_MINIMAL: a field is quoted iff it contains the delimiter, the
quote character or a line break. -/
def needsQuote (f : List Char) : Bool :=
  f.any (fun c => c = commaC ∨ c = dquoteC ∨ c = nlC ∨ c = crC)

/-- Double every embedded quote of a quoted field's body. -/
def escapeField : List Char → List Char
  | [] => []
  | c :: cs =>
    if c = dquoteC then dquoteC :: dquoteC :: escapeField cs
    else c :: escapeField cs

/-- Serialise one field, quoting it only when necessary. -/
def encodeField (f : List Char) : List Char :=
  if needsQuote f then dquoteC :: (escapeField f ++ [dquoteC]) else f

/-- Serialise one record: fields joined by commas. -/
def encodeRecord : List (List Char) → List Char
  | [] => []
  | [f] => encodeField f
  | f :: fs => encodeField f ++ commaC :: encodeRecord fs

/-- Serialise a table: each record followed by a line feed. -/
def encodeCsv : List (List (List Char)) → List Char
  | [] => []
  | r :: rs => encodeRecord r ++ nlC :: encodeCsv rs

/-- Read the body of a quoted field (the opening quote already consumed):
a doubled quote is a literal quote, a lone quote closes the field. -/
def parseQuoted : List Char → List Char → List Char × List Char
  | [], acc => (acc.reverse, [])
  | c :: rest, acc =>
    if c = dquoteC then
      match rest with
      | c2 :: rest2 =>
        if c2 = dquoteC then parseQuoted rest2 (dquoteC :: acc)
        else (acc.reverse, rest)
      | [] => (acc.reverse, [])
    else parseQuoted rest (c :: acc)

/-- Read an unquoted field: everything up to the next comma or line feed. -/
def parseUnquoted : List Char → List Char → List Char × List Char
  | [], acc => (acc.reverse, [])
  | c :: rest, acc =>
    if c = commaC ∨ c = nlC then (acc.reverse, c :: rest)
    else parseUnquoted rest (c :: acc)

/-- Read one field, quoted or not; returns the field and the unconsumed
remainder (which starts with the terminating comma or line feed). -/
def parseCsvField (s : List Char) : List Char × List Char :=
  match s with
  | [] => ([], [])
  | c :: rest => if c = dquoteC then parseQuoted rest [] else parseUnquoted s []

/-- Read one record: fields separated by commas, ended by a line feed or
the end of input.  `fuel` bounds the number of fields. -/
def parseRecordAux : Nat → List Char → List (List Char) × List Char
  | 0, s => ([], s)
  | fuel + 1, s =>
    let p := parseCsvField s
    match p.2 with
    | [] => ([p.1], [])
    | c :: rest2 =>
      if c = commaC then
        let q := parseRecordAux fuel rest2
        (p.1 :: q.1, q.2)
      else if c = nlC then ([p.1], rest2)
      else ([p.1], c :: rest2)

/-- Read records until the input is exhausted; `fuel` bounds the number of
records. -/
def parseRowsAux : Nat → List Char → List (List (List Char))
  | 0, _ => []
  | fuel + 1, s =>
    if s = [] then []
    else
      let p := parseRecordAux (s.length + 1) s
      p.1 :: parseRowsAux fuel p.2

/-- Parse a whole CSV text into its records. -/
def parseCsv (s : List Char) : List (List (List Char)) :=
  parseRowsAux (s.length + 1) s

/-! ## Decimal rendering and parsing of the Quantity column -/

/-- The character of one decimal digit. -/
def digitChar (d : Nat) : Char :=
  if d = 0 then '0'
  else if d = 1 then '1'
  else if d = 2 then '2'
  else if d = 3 then '3'
  else if d = 4 then '4'
  else if d = 5 then '5'
  else if d = 6 then '6'
  else if d = 7 then '7'
  else if d = 8 then '8'
  else '9'

/-- The value of one decimal digit character. -/
def charDigit (c : Char) : Option Nat :=
  if c = '0' then some 0
  else if c = '1' then some 1
  else if c = '2' then some 2
  else if c = '3' then some 3
  else if c = '4' then some 4
  else if c = '5' then some 5
  else if c = '6' then some 6
  else if c = '7' then some 7
  else if c = '8' then some 8
  else if c = '9' then some 9
  else none

/-- Decimal rendering of a natural number, most significant digit first. -/
def renderNat (n : Nat) : List Char :=
  if _h : n < 10 then [digitChar n]
  else renderNat (n / 10) ++ [digitChar (n % 10)]
  termination_by n
  decreasing_by exact Nat.div_lt_self (by omega) (by omega)

/-- Decimal rendering of an integer, with a leading minus sign when
negative. -/
def renderInt (n : Int) : List Char :=
  if n < 0 then minusC :: renderNat n.natAbs else renderNat n.toNat

/-- Accumulating decimal parser over digit characters. -/
def parseNatAux : List Char → Nat → Option Nat
  | [], acc => some acc
  | c :: cs, acc =>
    match charDigit c with
    | some d => parseNatAux cs (10 * acc + d)
    | none => none

/-- Parse a nonempty digit string. -/
def parseNatM : List Char → Option Nat
  | [] => none
  | c :: cs => parseNatAux (c :: cs) 0

/-- Parse an optionally minus-signed decimal integer. -/
def parseIntM (s : List Char) : Option Int :=
  match s with
  | [] => none
  | c :: cs =>
    if c = minusC then
      match parseNatM cs with
      | some m => some (-(m : Int))
      | none => none
    else
      match parseNatM (c :: cs) with
      | some m => some ((m : Int))
      | none => none

/-! ## The exported inventory table -/

/-- `item.department.name` as shown in the Department column; the foreign
key is followed to the department row. -/
def deptName (db : DB) (deptId : Option Nat) : String :=
  match deptId with
  | none => ""
  | some i =>
    ((db.departments.find? (fun d => d.id = i)).map (fun d => d.name)).getD ""

/-- Display rendering of `last_updated` (the code formats the timestamp
with `strftime`; any injective rendering carries the same information, and
the round-trip claim does not read this column). -/
def formatTimestamp (t : Nat) : List Char := renderNat t

/-- The DataFrame header row of `view_inventory`. -/
def headerRow : List (List Char) :=
  ["Department".data, "Item Name".data, "Barcode".data, "Quantity".data,
   "Low Stock Threshold".data, "Last Updated".data]

/-- One DataFrame row of `view_inventory`. -/
def itemRow (db : DB) (it : Item) : List (List Char) :=
  [(deptName db it.department_id).data, it.name.data, it.barcode.data,
   renderInt it.quantity, renderInt it.low_stock_threshold,
   formatTimestamp it.last_updated]

/-- `df.to_csv(index=False)` of the inventory table, as produced by
`get_table_download_link`. -/
def exportCsv (db : DB) : List Char :=
  encodeCsv (headerRow :: db.items.map (itemRow db))

/-- The (barcode, quantity) pairs of `listAll()`, i.e. of the items table. -/
def listAllPairs (db : DB) : List (String × Int) :=
  db.items.map (fun it => (it.barcode, it.quantity))

/-- The (barcode, quantity) pairs recovered from a CSV text: drop the
header record, read column 2 as the barcode and column 3 as the decimal
quantity. -/
def csvPairs (s : List Char) : List (String × Option Int) :=
  ((parseCsv s).drop 1).map
    (fun r => (String.mk (r.getD 2 []), parseIntM (r.getD 3 [])))

/-! ## Trend reconstruction (spec-modelled) -/

/-- The ordered `change` values of one item's history. -/
def changesFor (h : List StockHistory) (itemId : Nat) : List Int :=
  (h.filter (fun e => e.item_id = itemId)).map (fun e => e.change)

/-- Modelled from the spec: the `trend(itemId)` running-quantity
reconstruction belongs to a sibling variant of this repository and is not
in this source file.  Per the spec, the running quantity after entry `k`
of an item's ordered history is the initial quantity plus the deltas of
entries `0..k`. -/
def runningQuantity (initial : Int) (changes : List Int) (k : Nat) : Int :=
  initial + (changes.take (k + 1)).sum

/-! ## Sample states used by witnesses and counterexamples -/

/-- The Widget item of the spec's scenario: barcode 123, quantity 10,
threshold 5. -/
def widgetItem : Item :=
  { id := 1, name := "Widget", barcode := "123", quantity := 10,
    low_stock_threshold := 5, department_id := some 1, last_updated := 0 }

/-- The scenario state of the spec: department Warehouse, item Widget with
barcode 123, quantity 10, threshold 5, no history yet. -/
def sampleDB : DB :=
  { departments := [{ id := 1, name := "Warehouse" }],
    items := [widgetItem],
    history := [] }

/-- Initial quantities for `sampleDB` and `histDB`: item 1 started at 10. -/
def demoBase : Nat → Int := fun i => if i = 1 then 10 else 0

/-- The Widget item after one +5 restock. -/
def histItem : Item :=
  { id := 1, name := "Widget", barcode := "123", quantity := 15,
    low_stock_threshold := 5, department_id := some 1, last_updated := 3 }

/-- `sampleDB` after `applyDelta("123", +5, "restock")`. -/
def histDB : DB :=
  { departments := [{ id := 1, name := "Warehouse" }],
    items := [histItem],
    history := [{ id := 0, item_id := 1, change := 5, timestamp := 3,
                  note := "restock" }] }

/-! ## Helper lemmas -/

theorem changesFor_append (h1 h2 : List StockHistory) (i : Nat) :
    changesFor (h1 ++ h2) i = changesFor h1 i ++ changesFor h2 i := by
  simp [changesFor]

theorem histSum_eq_sum_changesFor (db : DB) (i : Nat) :
    histSum db i = (changesFor db.history i).sum := rfl

/-- Rewriting `scanUpdate` when the barcode resolves to an item. -/
theorem scanUpdate_found (db : DB) (b : String) (δ : Int) (note : String)
    (now : Nat) (item : Item) (hf : findByBarcode db b = some item) :
    scanUpdate db b δ note now =
      { db with
        items := db.items.map (fun it =>
          if it.id = item.id then
            { it with quantity := it.quantity + δ, last_updated := now }
          else it),
        history := db.history ++
          [{ id := db.history.length, item_id := item.id, change := δ,
             timestamp := now, note := note }] } := by
  unfold scanUpdate
  rw [hf]

/-- Rewriting `scanUpdate` when the barcode resolves to no item. -/
theorem scanUpdate_not_found (db : DB) (b : String) (δ : Int) (note : String)
    (now : Nat) (hf : findByBarcode db b = none) :
    scanUpdate db b δ note now = db := by
  unfold scanUpdate
  rw [hf]

/-! ## Claims -/

/-- C3: low-stock status is the pure comparison `quantity < threshold`,
recomputed from the row on read (the alert table membership), never stored
in any field; for quantity 4 and threshold 5 it holds, for quantity 5 and
threshold 5 it does not, whatever the rest of the item is. -/
theorem C3_isLowStock (db : DB) (it : Item) :
    (isLowStock it = true ↔ it.quantity < it.low_stock_threshold)
    ∧ (it ∈ lowStockAlerts db ↔ it ∈ db.items ∧ isLowStock it = true)
    ∧ isLowStock { it with quantity := 4, low_stock_threshold := 5 } = true
    ∧ isLowStock { it with quantity := 5, low_stock_threshold := 5 } = false := by
  refine ⟨by simp [isLowStock], ?_, by simp [isLowStock], by simp [isLowStock]⟩
  simp [lowStockAlerts, List.mem_filter]

/-- C9: the inventory-view colouring is the total three-band split of
(quantity, threshold): red exactly below the threshold, yellow exactly in
the window [threshold, threshold + 5), green exactly at or above
threshold + 5. -/
theorem C9_color_bands (v t : Int) :
    (color_stock v t = "background-color: #ffcccc" ↔ v < t)
    ∧ (color_stock v t = "background-color: #fff3cd" ↔ t ≤ v ∧ v < t + 5)
    ∧ (color_stock v t = "background-color: #d4edda" ↔ t + 5 ≤ v) := by
  unfold color_stock
  split_ifs with h1 h2
  · exact ⟨iff_of_true rfl h1, iff_of_false (by decide) (by omega),
      iff_of_false (by decide) (by omega)⟩
  · exact ⟨iff_of_false (by decide) h1, iff_of_true rfl ⟨by omega, h2⟩,
      iff_of_false (by decide) (by omega)⟩
  · exact ⟨iff_of_false (by decide) h1, iff_of_false (by decide) (by omega),
      iff_of_true rfl (by omega)⟩

/-- C10: deleting a department removes exactly that department row;
every item row survives (those that referenced it merely lose the
reference), the history is untouched, and the operation is total — it is
never rejected, dependent items or not. -/
theorem C10_deleteDepartment (db : DB) (d : Nat) :
    (deleteDepartment db d).departments =
      db.departments.filter (fun x => x.id ≠ d)
    ∧ (deleteDepartment db d).items =
        db.items.map (fun x =>
          if x.department_id = some d then { x with department_id := none }
          else x)
    ∧ (deleteDepartment db d).items.length = db.items.length
    ∧ (deleteDepartment db d).history = db.history := by
  refine ⟨rfl, rfl, ?_, rfl⟩
  simp [deleteDepartment]

/-- C8: the edit-item Update handler overwrites name, barcode, quantity,
threshold and `last_updated` in place and appends no `StockHistory` row:
the history — and hence every item's history sum — is exactly what it was,
so a quantity change through this path leaves no ledger record. -/
theorem C8_editItem_no_history (db : DB) (i : Nat) (nn nb : String)
    (nq nt : Int) (now : Nat) :
    (editItem db i nn nb nq nt now).history = db.history
    ∧ (editItem db i nn nb nq nt now).departments = db.departments
    ∧ (editItem db i nn nb nq nt now).items =
        db.items.map (fun x =>
          if x.id = i then
            { x with
              name := nn, barcode := nb, quantity := nq,
              low_stock_threshold := nt, last_updated := now }
          else x)
    ∧ ∀ j, histSum (editItem db i nn nb nq nt now) j = histSum db j :=
  ⟨rfl, rfl, rfl, fun _ => rfl⟩

/-- C4: creating an item whose barcode already exists fails on the unique
constraint and rolls back: the result is the duplicate-barcode error and
the state is returned exactly as it was, with no partial row. -/
theorem C4_duplicate_barcode (db : DB) (newId : Nat) (name b : String)
    (q th : Int) (dept now : Nat) (it : Item)
    (hmem : it ∈ db.items) (hbar : it.barcode = b)
    (hname : name ≠ "") (hb : b ≠ "") :
    createItem db newId name b q th dept now =
      (db, some CreateErr.duplicateBarcode) := by
  unfold createItem
  rw [if_neg (by simp [hname, hb]), if_pos]
  rw [List.any_eq_true]
  exact ⟨it, hmem, by simp [hbar]⟩

theorem C4_duplicate_barcode_witness :
    widgetItem ∈ sampleDB.items ∧ widgetItem.barcode = "123"
    ∧ createItem sampleDB 2 "Gadget" "123" 0 1 1 9 =
        (sampleDB, some CreateErr.duplicateBarcode) :=
  ⟨by decide, by decide,
    C4_duplicate_barcode sampleDB 2 "Gadget" "123" 0 1 1 9 widgetItem
      (by decide) (by decide) (by decide) (by decide)⟩

/-- C5: a scan-page stock update on a found item atomically adds the delta
to that item's quantity and stamps its `last_updated`, leaves its other
fields and every other item untouched (visible in the record update below),
leaves the departments untouched, and appends exactly one history row
carrying the same delta and note. -/
theorem C5_scanUpdate_effect (db : DB) (b note : String) (δ : Int)
    (now : Nat) (it : Item) (hfind : findByBarcode db b = some it) :
    (scanUpdate db b δ note now).departments = db.departments
    ∧ (scanUpdate db b δ note now).items =
        db.items.map (fun x =>
          if x.id = it.id then
            { x with quantity := x.quantity + δ, last_updated := now }
          else x)
    ∧ (scanUpdate db b δ note now).history =
        db.history ++
          [{ id := db.history.length, item_id := it.id, change := δ,
             timestamp := now, note := note }] := by
  rw [scanUpdate_found db b δ note now it hfind]
  exact ⟨rfl, rfl, rfl⟩

theorem C5_scanUpdate_effect_witness :
    findByBarcode sampleDB "123" = some widgetItem
    ∧ (scanUpdate sampleDB "123" 5 "restock" 3).history =
        sampleDB.history ++
          [{ id := sampleDB.history.length, item_id := widgetItem.id,
             change := 5, timestamp := 3, note := "restock" }] :=
  ⟨by decide,
    (C5_scanUpdate_effect sampleDB "123" "restock" 5 3 widgetItem
      (by decide)).2.2⟩

/-- C1 fails on this source: the scan-page stock update has no
insufficient-stock check.  Concretely, on the Widget item with quantity 10
a delta of −20 is not rejected: the quantity is driven to −10 and a history
row is appended, contradicting the claim that the state is left
unchanged. -/
theorem C1_counterexample :
    (scanUpdate sampleDB "123" (-20) "bulk issue" 7).history ≠ sampleDB.history
    ∧ (scanUpdate sampleDB "123" (-20) "bulk issue" 7).items.map
        (fun x => x.quantity) = [-10] := by
  decide

/-- C1 amended: when the delta's magnitude exceeds the item's quantity the
scan-page stock update does not fail — no `InsufficientStockError` exists
in this variant: the delta is applied anyway, leaving the item's quantity
negative, and the history row is still appended. -/
theorem C1_amended_no_check (db : DB) (b note : String) (δ : Int)
    (now : Nat) (it : Item) (hfind : findByBarcode db b = some it)
    (hneg : it.quantity + δ < 0) :
    (scanUpdate db b δ note now).history =
        db.history ++
          [{ id := db.history.length, item_id := it.id, change := δ,
             timestamp := now, note := note }]
    ∧ ∃ x ∈ (scanUpdate db b δ note now).items,
        x.id = it.id ∧ x.quantity = it.quantity + δ ∧ x.quantity < 0 := by
  rw [scanUpdate_found db b δ note now it hfind]
  refine ⟨rfl, { it with quantity := it.quantity + δ, last_updated := now },
    ?_, by simp, by simp, by simpa using hneg⟩
  have hmem : it ∈ db.items := List.mem_of_find?_eq_some hfind
  have := List.mem_map_of_mem
    (fun x => if x.id = it.id then
      { x with quantity := x.quantity + δ, last_updated := now } else x) hmem
  simpa using this

theorem C1_amended_no_check_witness :
    findByBarcode sampleDB "123" = some widgetItem
    ∧ widgetItem.quantity + (-20) < 0
    ∧ ((scanUpdate sampleDB "123" (-20) "bulk issue" 7).history =
        sampleDB.history ++
          [{ id := sampleDB.history.length, item_id := widgetItem.id,
             change := -20, timestamp := 7, note := "bulk issue" }]
       ∧ ∃ x ∈ (scanUpdate sampleDB "123" (-20) "bulk issue" 7).items,
           x.id = widgetItem.id ∧ x.quantity = widgetItem.quantity + (-20)
           ∧ x.quantity < 0) :=
  ⟨by decide, by decide,
    C1_amended_no_check sampleDB "123" "bulk issue" (-20) 7 widgetItem
      (by decide) (by decide)⟩

/-- One scan-page stock update preserves the reconciliation invariant: the
quantity moves by exactly the delta recorded in the appended history row. -/
theorem scanUpdate_preserves_reconciled (base : Nat → Int) (db : DB)
    (b : String) (δ : Int) (note : String) (now : Nat)
    (h : reconciled base db) : reconciled base (scanUpdate db b δ note now) := by
  cases hf : findByBarcode db b with
  | none => rw [scanUpdate_not_found db b δ note now hf]; exact h
  | some item =>
    rw [scanUpdate_found db b δ note now item hf]
    intro it' hmem'
    simp only [List.mem_map] at hmem'
    obtain ⟨it, hit, rfl⟩ := hmem'
    have hq := h it hit
    by_cases hid : it.id = item.id
    · simp only [hid, if_pos rfl]
      simp only [histSum, changesFor, List.filter_append, List.map_append,
        List.sum_append]
      simp only [histSum, changesFor] at hq
      simp [hid, hq]
      omega
    · simp only [if_neg hid]
      simp only [histSum, changesFor, List.filter_append, List.map_append,
        List.sum_append]
      simp only [histSum, changesFor] at hq
      simp [hid, hq, List.filter, Ne.symm hid]

/-- C2 fails on this source as stated: the invariant is not preserved by
*every* operation that mutates quantity.  The edit-item Update handler
changes the quantity with no history row: on the reconciled Widget state,
editing the quantity from 10 to 3 breaks the reconciliation. -/
theorem C2_counterexample :
    reconciled demoBase sampleDB
    ∧ ¬ reconciled demoBase (editItem sampleDB 1 "Widget" "123" 3 5 9) := by
  constructor
  · decide
  · decide

/-- C2 amended: the reconciliation invariant — each item's quantity equals
its initial quantity plus the sum of its committed history deltas — holds
after every sequence of scan-page stock updates, being preserved by each
one; it is not preserved by the edit-item path. -/
theorem C2_amended_applySeq (base : Nat → Int) (db : DB)
    (ops : List (String × Int × String × Nat)) (h : reconciled base db) :
    reconciled base (applySeq db ops) := by
  induction ops generalizing db with
  | nil => exact h
  | cons op rest ih =>
    obtain ⟨b, d, n, t⟩ := op
    exact ih _ (scanUpdate_preserves_reconciled base db b d n t h)

theorem C2_amended_applySeq_witness :
    reconciled demoBase sampleDB
    ∧ reconciled demoBase
        (applySeq sampleDB [("123", 5, "restock", 3), ("123", -2, "issue", 4)]) :=
  ⟨by decide,
    C2_amended_applySeq demoBase sampleDB
      [("123", 5, "restock", 3), ("123", -2, "issue", 4)] (by decide)⟩

/-- C7: for an item satisfying the reconciliation invariant, the running
quantity after history entry `k` (initial quantity plus the deltas of
entries `0..k`) equals the current quantity minus the sum of the deltas of
the entries after `k`. -/
theorem C7_running (base : Nat → Int) (db : DB) (it : Item) (k : Nat)
    (hrec : reconciled base db) (hmem : it ∈ db.items) :
    runningQuantity (base it.id) (changesFor db.history it.id) k =
      it.quantity - ((changesFor db.history it.id).drop (k + 1)).sum := by
  have hq := hrec it hmem
  rw [histSum_eq_sum_changesFor] at hq
  have hsplit : ((changesFor db.history it.id).take (k + 1)).sum +
      ((changesFor db.history it.id).drop (k + 1)).sum =
      (changesFor db.history it.id).sum :=
    List.sum_take_add_sum_drop _ _
  unfold runningQuantity
  omega

theorem C7_running_witness :
    reconciled demoBase histDB
    ∧ runningQuantity (demoBase histItem.id) (changesFor histDB.history histItem.id) 0 =
        histItem.quantity - ((changesFor histDB.history histItem.id).drop (0 + 1)).sum :=
  ⟨by decide, C7_running demoBase histDB histItem 0 (by decide) (by decide)⟩

/-! ## CSV round-trip: field level -/

theorem parseQuoted_double (X acc : List Char) :
    parseQuoted (dquoteC :: dquoteC :: X) acc =
      parseQuoted X (dquoteC :: acc) := by
  rw [parseQuoted.eq_def]
  simp

theorem parseQuoted_skip (c : Char) (X acc : List Char) (hc : ¬ c = dquoteC) :
    parseQuoted (c :: X) acc = parseQuoted X (c :: acc) := by
  rw [parseQuoted.eq_def]
  simp [hc]

theorem parseUnquoted_skip (c : Char) (X acc : List Char)
    (hc : ¬(c = commaC ∨ c = nlC)) :
    parseUnquoted (c :: X) acc = parseUnquoted X (c :: acc) := by
  rw [parseUnquoted.eq_def]
  simp [hc]

theorem parseQuoted_end (acc : List Char) (rest : List Char)
    (hrest : rest.head? ≠ some dquoteC) :
    parseQuoted (dquoteC :: rest) acc = (acc.reverse, rest) := by
  cases rest with
  | nil => simp [parseQuoted]
  | cons c2 r2 =>
    have hc2 : c2 ≠ dquoteC := by
      intro h
      exact hrest (by simp [h])
    simp [parseQuoted, hc2]

theorem parseQuoted_escape (f : List Char) : ∀ (rest acc : List Char),
    rest.head? ≠ some dquoteC →
    parseQuoted (escapeField f ++ dquoteC :: rest) acc =
      (acc.reverse ++ f, rest) := by
  induction f with
  | nil =>
    intro rest acc hrest
    simpa [escapeField] using parseQuoted_end acc rest hrest
  | cons c cs ih =>
    intro rest acc hrest
    by_cases hc : c = dquoteC
    · subst hc
      rw [show escapeField (dquoteC :: cs) = dquoteC :: dquoteC :: escapeField cs
          from by simp [escapeField]]
      rw [List.cons_append, List.cons_append, parseQuoted_double]
      rw [ih rest (dquoteC :: acc) hrest]
      simp
    · rw [show escapeField (c :: cs) = c :: escapeField cs
          from by simp [escapeField, hc]]
      rw [List.cons_append, parseQuoted_skip c _ acc hc]
      rw [ih rest (c :: acc) hrest]
      simp

theorem needsQuote_cons (c : Char) (cs : List Char)
    (h : needsQuote (c :: cs) = false) :
    c ≠ commaC ∧ c ≠ dquoteC ∧ c ≠ nlC ∧ needsQuote cs = false := by
  simp only [needsQuote, List.any_cons, Bool.or_eq_false_iff] at h
  obtain ⟨h1, h2⟩ := h
  simp only [decide_eq_false_iff_not, not_or] at h1
  exact ⟨h1.1, h1.2.1, h1.2.2.1, h2⟩

theorem parseUnquoted_clean (f : List Char) : ∀ (rest acc : List Char),
    needsQuote f = false →
    (rest = [] ∨ rest.head? = some commaC ∨ rest.head? = some nlC) →
    parseUnquoted (f ++ rest) acc = (acc.reverse ++ f, rest) := by
  induction f with
  | nil =>
    intro rest acc _ hrest
    rcases hrest with rfl | h | h
    · simp [parseUnquoted]
    · obtain ⟨r2, rfl⟩ : ∃ r2, rest = commaC :: r2 := by
        cases rest <;> simp_all
      simp [parseUnquoted]
    · obtain ⟨r2, rfl⟩ : ∃ r2, rest = nlC :: r2 := by
        cases rest <;> simp_all
      simp [parseUnquoted]
  | cons c cs ih =>
    intro rest acc hq hrest
    obtain ⟨hc1, _, hc3, hcs⟩ := needsQuote_cons c cs hq
    rw [show ((c :: cs) ++ rest) = c :: (cs ++ rest) by simp]
    rw [parseUnquoted_skip c _ acc (by simp [hc1, hc3])]
    rw [ih rest (c :: acc) hcs hrest]
    simp

theorem parseCsvField_encode (f rest : List Char)
    (hrest : rest = [] ∨ rest.head? = some commaC ∨ rest.head? = some nlC) :
    parseCsvField (encodeField f ++ rest) = (f, rest) := by
  have hnq : rest.head? ≠ some dquoteC := by
    rcases hrest with rfl | h | h <;> simp_all <;> decide
  unfold encodeField
  by_cases hq : needsQuote f
  · rw [if_pos hq]
    rw [show (dquoteC :: (escapeField f ++ [dquoteC])) ++ rest =
        dquoteC :: (escapeField f ++ dquoteC :: rest) by simp]
    simp only [parseCsvField, if_true]
    simpa using parseQuoted_escape f rest [] hnq
  · rw [if_neg hq]
    have hq2 : needsQuote f = false := by simpa using hq
    cases f with
    | nil =>
      rcases hrest with rfl | h | h
      · simp [parseCsvField]
      · obtain ⟨r2, rfl⟩ : ∃ r2, rest = commaC :: r2 := by
          cases rest <;> simp_all
        simp only [List.nil_append, parseCsvField]
        rw [if_neg (show commaC ≠ dquoteC by decide)]
        simpa using parseUnquoted_clean [] (commaC :: r2) [] rfl
          (Or.inr (Or.inl rfl))
      · obtain ⟨r2, rfl⟩ : ∃ r2, rest = nlC :: r2 := by
          cases rest <;> simp_all
        simp only [List.nil_append, parseCsvField]
        rw [if_neg (show nlC ≠ dquoteC by decide)]
        simpa using parseUnquoted_clean [] (nlC :: r2) [] rfl
          (Or.inr (Or.inr rfl))
    | cons c cs =>
      obtain ⟨_, hc2, _, _⟩ := needsQuote_cons c cs hq2
      rw [show ((c :: cs) ++ rest) = c :: (cs ++ rest) by simp]
      simp only [parseCsvField]
      rw [if_neg hc2]
      simpa using parseUnquoted_clean (c :: cs) rest [] hq2 hrest

/-! ## CSV round-trip: record and table level -/

theorem encodeRecord_cons2 (f g : List Char) (gs : List (List Char)) :
    encodeRecord (f :: g :: gs) =
      encodeField f ++ commaC :: encodeRecord (g :: gs) := rfl

theorem encodeRecord_length_ge (fs : List (List Char)) :
    fs.length ≤ (encodeRecord fs).length + 1 := by
  induction fs with
  | nil => simp [encodeRecord]
  | cons f fs ih =>
    cases fs with
    | nil => simp [encodeRecord]
    | cons g gs =>
      rw [encodeRecord_cons2]
      simp only [List.length_cons, List.length_append] at *
      omega

theorem parseRecordAux_encode : ∀ (fs : List (List Char)) (fuel : Nat)
    (rest : List Char), fs ≠ [] → fs.length ≤ fuel →
    parseRecordAux fuel (encodeRecord fs ++ nlC :: rest) = (fs, rest) := by
  intro fs
  induction fs with
  | nil => intro fuel rest h _; exact absurd rfl h
  | cons f fs ih =>
    intro fuel rest _ hlen
    obtain ⟨g, rfl⟩ : ∃ g, fuel = g + 1 :=
      ⟨fuel - 1, by simp at hlen; omega⟩
    cases fs with
    | nil =>
      rw [show encodeRecord [f] = encodeField f from rfl]
      rw [parseRecordAux.eq_2]
      rw [parseCsvField_encode f (nlC :: rest) (Or.inr (Or.inr rfl))]
      simp [show ¬ nlC = commaC from by decide]
    | cons g2 gs =>
      rw [encodeRecord_cons2]
      rw [show (encodeField f ++ commaC :: encodeRecord (g2 :: gs)) ++ nlC :: rest
          = encodeField f ++ commaC :: (encodeRecord (g2 :: gs) ++ nlC :: rest)
          by simp]
      rw [parseRecordAux.eq_2]
      rw [parseCsvField_encode f
        (commaC :: (encodeRecord (g2 :: gs) ++ nlC :: rest))
        (Or.inr (Or.inl rfl))]
      simp only []
      rw [ih g rest (by simp) (by simp at hlen ⊢; omega)]
      simp

theorem encodeCsv_cons (r : List (List Char)) (rs : List (List (List Char))) :
    encodeCsv (r :: rs) = encodeRecord r ++ nlC :: encodeCsv rs := rfl

theorem encodeCsv_length_ge (rows : List (List (List Char))) :
    rows.length ≤ (encodeCsv rows).length := by
  induction rows with
  | nil => simp [encodeCsv]
  | cons r rs ih =>
    rw [encodeCsv_cons]
    simp only [List.length_cons, List.length_append, List.length_cons]
    omega

theorem parseRowsAux_encode : ∀ (rows : List (List (List Char))) (fuel : Nat),
    (∀ r ∈ rows, r ≠ []) → rows.length ≤ fuel →
    parseRowsAux fuel (encodeCsv rows) = rows := by
  intro rows
  induction rows with
  | nil =>
    intro fuel _ _
    cases fuel <;> simp [parseRowsAux, encodeCsv]
  | cons r rs ih =>
    intro fuel hne hlen
    obtain ⟨g, rfl⟩ : ∃ g, fuel = g + 1 :=
      ⟨fuel - 1, by simp at hlen; omega⟩
    rw [encodeCsv_cons]
    have hnil : encodeRecord r ++ nlC :: encodeCsv rs ≠ [] := by simp
    rw [parseRowsAux.eq_2]
    rw [if_neg hnil]
    rw [parseRecordAux_encode r _ (encodeCsv rs) (hne r (by simp)) ?hfuel]
    case hfuel =>
      have h1 := encodeRecord_length_ge r
      simp only [List.length_append, List.length_cons]
      omega
    simp only []
    rw [ih g (fun x hx => hne x (by simp [hx])) (by simp at hlen; omega)]

theorem parseCsv_encodeCsv (rows : List (List (List Char)))
    (hrows : ∀ r ∈ rows, r ≠ []) : parseCsv (encodeCsv rows) = rows :=
  parseRowsAux_encode rows _ hrows
    (by have := encodeCsv_length_ge rows; omega)

/-! ## Decimal round-trip for the Quantity column -/

theorem charDigit_digitChar (d : Nat) (hd : d < 10) :
    charDigit (digitChar d) = some d := by
  interval_cases d <;> rfl

theorem renderNat_ne_nil (n : Nat) : renderNat n ≠ [] := by
  rw [renderNat]
  split <;> simp

theorem renderNat_digits (n : Nat) : ∀ c ∈ renderNat n, (charDigit c).isSome := by
  induction n using Nat.strong_induction_on with
  | _ n ih =>
    rw [renderNat]
    by_cases h : n < 10
    · rw [dif_pos h]
      intro c hc
      simp only [List.mem_singleton] at hc
      subst hc
      rw [charDigit_digitChar n h]
      rfl
    · rw [dif_neg h]
      intro c hc
      rcases List.mem_append.1 hc with h1 | h2
      · exact ih _ (Nat.div_lt_self (by omega) (by omega)) c h1
      · simp only [List.mem_singleton] at h2
        subst h2
        rw [charDigit_digitChar _ (Nat.mod_lt _ (by omega))]
        rfl

theorem parseNatAux_append (xs ys : List Char) : ∀ (acc m : Nat),
    parseNatAux xs acc = some m →
    parseNatAux (xs ++ ys) acc = parseNatAux ys m := by
  induction xs with
  | nil =>
    intro acc m h
    simp only [parseNatAux, Option.some.injEq] at h
    subst h
    rfl
  | cons c cs ih =>
    intro acc m h
    cases hc : charDigit c with
    | none =>
      rw [show parseNatAux (c :: cs) acc = none from by
        simp [parseNatAux, hc]] at h
      exact absurd h (by simp)
    | some d =>
      rw [show parseNatAux (c :: cs) acc = parseNatAux cs (10 * acc + d) from by
        simp [parseNatAux, hc]] at h
      rw [show ((c :: cs) ++ ys) = c :: (cs ++ ys) from rfl]
      rw [show parseNatAux (c :: (cs ++ ys)) acc =
          parseNatAux (cs ++ ys) (10 * acc + d) from by
        simp [parseNatAux, hc]]
      exact ih _ _ h

theorem parseNatAux_renderNat (n : Nat) :
    parseNatAux (renderNat n) 0 = some n := by
  induction n using Nat.strong_induction_on with
  | _ n ih =>
    rw [renderNat]
    by_cases h : n < 10
    · rw [dif_pos h]
      simp [parseNatAux, charDigit_digitChar n h]
    · rw [dif_neg h]
      rw [parseNatAux_append _ _ _ _
        (ih _ (Nat.div_lt_self (by omega) (by omega)))]
      simp only [parseNatAux, charDigit_digitChar (n % 10) (Nat.mod_lt _ (by omega))]
      rw [show 10 * (n / 10) + n % 10 = n from by omega]

theorem parseNatM_renderNat (n : Nat) : parseNatM (renderNat n) = some n := by
  obtain ⟨c, cs, hcons⟩ : ∃ c cs, renderNat n = c :: cs := by
    cases h : renderNat n with
    | nil => exact absurd h (renderNat_ne_nil n)
    | cons c cs => exact ⟨c, cs, rfl⟩
  calc parseNatM (renderNat n) = parseNatAux (renderNat n) 0 := by rw [hcons]; rfl
    _ = some n := parseNatAux_renderNat n

theorem parseIntM_minus (cs : List Char) :
    parseIntM (minusC :: cs) =
      match parseNatM cs with
      | some m => some (-(m : Int))
      | none => none := by
  simp [parseIntM]

theorem parseIntM_nonminus (c : Char) (cs : List Char) (hc : c ≠ minusC) :
    parseIntM (c :: cs) =
      match parseNatM (c :: cs) with
      | some m => some ((m : Int))
      | none => none := by
  simp [parseIntM, hc]

theorem parseIntM_renderInt (q : Int) : parseIntM (renderInt q) = some q := by
  unfold renderInt
  by_cases h : q < 0
  · rw [if_pos h]
    rw [parseIntM_minus, parseNatM_renderNat]
    show some (-(q.natAbs : Int)) = some q
    congr 1
    omega
  · rw [if_neg h]
    obtain ⟨c, cs, hcons⟩ : ∃ c cs, renderNat q.toNat = c :: cs := by
      cases hh : renderNat q.toNat with
      | nil => exact absurd hh (renderNat_ne_nil _)
      | cons c cs => exact ⟨c, cs, rfl⟩
    have hdig : (charDigit c).isSome :=
      renderNat_digits q.toNat c (by rw [hcons]; simp)
    have hcm : c ≠ minusC := by
      intro hh
      rw [hh] at hdig
      exact absurd hdig (by decide)
    rw [hcons, parseIntM_nonminus c cs hcm]
    rw [← hcons, parseNatM_renderNat]
    show some ((q.toNat : Int)) = some q
    congr 1
    omega

/-! ## C6: export/parse round-trip -/

/-- C6: exporting the inventory to CSV and parsing the text back recovers,
row for row, exactly the (barcode, quantity) pairs of the items table —
whatever the states of names, barcodes (including embedded commas, quotes
and line breaks), quantities (including negatives) and departments. -/
theorem C6_csv_roundtrip (db : DB) :
    csvPairs (exportCsv db) =
      db.items.map (fun it => (it.barcode, some it.quantity)) := by
  unfold csvPairs exportCsv
  rw [parseCsv_encodeCsv]
  · rw [show (headerRow :: db.items.map (itemRow db)).drop 1 =
        db.items.map (itemRow db) from rfl]
    rw [List.map_map]
    apply List.map_congr_left
    intro it _
    simp only [Function.comp_apply, itemRow]
    rw [show ([(deptName db it.department_id).data, it.name.data,
        it.barcode.data, renderInt it.quantity,
        renderInt it.low_stock_threshold,
        formatTimestamp it.last_updated].getD 2 []) = it.barcode.data from rfl]
    rw [show ([(deptName db it.department_id).data, it.name.data,
        it.barcode.data, renderInt it.quantity,
        renderInt it.low_stock_threshold,
        formatTimestamp it.last_updated].getD 3 []) =
        renderInt it.quantity from rfl]
    rw [parseIntM_renderInt]
  · intro r hr
    rcases List.mem_cons.1 hr with rfl | hr2
    · simp [headerRow]
    · obtain ⟨it, _, rfl⟩ := List.mem_map.1 hr2
      simp [itemRow]

end Inventory
